import Mathlib

/-!
# Verification of the pomerium authorization-decision core

Shallow embedding of the two source files of this repository:

* `authorize/evaluator/policy.go` — the policy evaluator
  (`PolicyOutput.Merge`, `NewPolicyEvaluator`, `PolicyEvaluator.Evaluate`,
  `evaluateQuery`, `getAllow`, `getDeny`);
* the rego generator (`generator` package) — `Generator`, `Generator.Generate`,
  `Generator.NewRule`.

External collaborators (the OPA rego engine, the criterion sub-generators,
`config.Policy.ToPPL`, `policy.GenerateRegoFromPolicy`, the data store and
logging) are not part of the sources; they enter the model as abstract
parameters or as values of an untyped rego-result tree, as documented at each
definition.
-/

namespace Pomerium

/-! ## Untyped rego result values

A query result binding (`rego.Vars`, i.e. `map[string]interface{}`) holds a
generic JSON-like tree: Go `nil`, `bool`, numbers, `string`,
`[]interface{}` and `map[string]interface{}`.  Numbers are modelled as
integers (the claims under study depend only on integer-valued statuses and on
coercion *failure*, never on the printed form of non-integral floats). -/
inductive RegoValue where
  | null : RegoValue
  | bool (b : Bool) : RegoValue
  | num (n : Int) : RegoValue
  | str (s : String) : RegoValue
  | arr (elems : List RegoValue) : RegoValue
  | obj (fields : List (String × RegoValue)) : RegoValue

/-- `rego.Vars` — the named bindings of one query result, as an association
list (Go maps have unique keys; lookup takes the first match). -/
def RegoVars := List (String × RegoValue)

/-! ### `fmt.Sprint` / `strconv.Atoi` models -/

/-- Decimal digit value of a character (used to read back `Nat.repr`). -/
def digitVal (c : Char) : Nat := c.toNat - 48

/-- Is `c` one of `'0'..'9'`? -/
def isDigitChar (c : Char) : Bool := 48 ≤ c.toNat && c.toNat ≤ 57

/-- Big-endian decimal value of a digit string. -/
def natDecode (l : List Char) : Nat := l.foldl (fun a c => a * 10 + digitVal c) 0

/-- Model of Go's `fmt.Sprint` on an integer value (`%v` of an integral
number prints its decimal form). -/
def intSprint (n : Int) : String :=
  if n < 0 then "-" ++ Nat.repr n.natAbs else Nat.repr n.toNat

/-- Space-separated join, as `fmt.Sprint` prints slice elements. -/
def sprintSpaced : List String → String
  | [] => ""
  | [s] => s
  | s :: rest => s ++ " " ++ sprintSpaced rest

mutual
/-- Model of Go's `fmt.Sprint` on one rego result value: `nil` prints
`<nil>`, booleans print `true`/`false`, numbers print in decimal, strings
print verbatim, slices print `[e1 e2 ...]` and maps print `map[k:v ...]`.
(Go additionally sorts map keys when printing; the model keeps field order —
no claim inspects the printed form of a map, it only ever fails integer
coercion, which both forms do since both start with `map[`.) -/
def sprint : RegoValue → String
  | .null => "<nil>"
  | .bool b => if b then "true" else "false"
  | .num n => intSprint n
  | .str s => s
  | .arr xs => "[" ++ sprintSpaced (sprintList xs) ++ "]"
  | .obj fs => "map[" ++ sprintSpaced (sprintFields fs) ++ "]"

/-- `fmt.Sprint` of each element of a slice. -/
def sprintList : List RegoValue → List String
  | [] => []
  | v :: vs => sprint v :: sprintList vs

/-- `fmt.Sprint` of each `k:v` entry of a map. -/
def sprintFields : List (String × RegoValue) → List String
  | [] => []
  | (k, v) :: fs => (k ++ ":" ++ sprint v) :: sprintFields fs
end

/-- Model of `strconv.Atoi`: an optional sign followed by one or more decimal
digits; anything else fails.  (Go additionally range-checks against the
machine `int`; statuses in scope are far below that bound, and every claim
about `Atoi` concerns its failure on non-numeric text, so the range check is
immaterial and omitted.) -/
def atoi (s : String) : Option Int :=
  match s.data with
  | [] => none
  | '-' :: ds =>
    if !ds.isEmpty && ds.all isDigitChar then some (-(natDecode ds : Int)) else none
  | '+' :: ds =>
    if !ds.isEmpty && ds.all isDigitChar then some ((natDecode ds : Int)) else none
  | ds =>
    if ds.all isDigitChar then some ((natDecode ds : Int)) else none

/-! ## `authorize/evaluator/policy.go` -/

/-- A `Denial` indicates the request should be denied (even if otherwise
allowed).  `Status` is a Go `int`. -/
structure Denial where
  Status : Int
  Message : String

/-- `PolicyOutput` is the result of evaluating a policy. -/
structure PolicyOutput where
  Allow : Bool
  Deny : Option Denial

/-- `PolicyOutput.Merge` (policy.go lines 30–39): access is allowed if either
is allowed; the denial of `other` takes precedence when present. -/
def PolicyOutput.Merge (output other : PolicyOutput) : PolicyOutput :=
  { Allow := output.Allow || other.Allow
    Deny := if other.Deny.isSome then other.Deny else output.Deny }

/-- Outcome of running a piece of Go code that can either return normally,
return an error, or panic (crash). -/
inductive GoFailure where
  | goError (msg : String) : GoFailure
  | crash : GoFailure

/-- `getAllow` (policy.go lines 125–137): the `result` binding must be an
object whose `allow` field is a boolean; every other shape yields `false`.
Total — it can neither fail nor panic. -/
def getAllow (vars : RegoVars) : Bool :=
  match List.lookup "result" vars with
  | some (RegoValue.obj m) =>
    match List.lookup "allow" m with
    | some (RegoValue.bool b) => b
    | _ => false
  | _ => false

/-- `getDeny` (policy.go lines 140–162).  The `result` binding must be an
object whose `deny` field is a slice; other shapes yield no denial.  The code
then reads `pair[0]` and `pair[1]` *without a length check*: on an empty
slice `pair[0]` panics; on a one-element slice whose element coerces to an
integer `pair[1]` panics; a one-element slice whose element fails coercion
returns `nil` before reaching `pair[1]`.  The coercion-failure branch logs a
diagnostic (logging is an observable side effect outside this model) and
yields no denial. -/
def getDeny (vars : RegoVars) : Except GoFailure (Option Denial) :=
  match List.lookup "result" vars with
  | some (RegoValue.obj m) =>
    match List.lookup "deny" m with
    | some (RegoValue.arr pair) =>
      match pair.head? with
      | none => .error .crash
      | some v0 =>
        match atoi (sprint v0) with
        | none => .ok none
        | some status =>
          match pair[1]? with
          | none => .error .crash
          | some v1 => .ok (some { Status := status, Message := sprint v1 })
    | _ => .ok none
  | _ => .ok none

/-- The engine's response to evaluating one prepared query against the input:
either an execution error or a list of result bindings.  `query.Eval` is an
external collaborator, so each query enters `Evaluate` as its response. -/
def QueryResponse := Except String (List RegoVars)

/-- `evaluateQuery` (policy.go lines 108–122): an execution error is wrapped;
an empty result set is an error; otherwise `allow`/`deny` are extracted from
the first result's bindings (a panic in `getDeny` propagates). -/
def evaluateQuery (response : QueryResponse) : Except GoFailure PolicyOutput :=
  match response with
  | .error e => .error (.goError ("authorize: error evaluating policy.rego: " ++ e))
  | .ok rs =>
    match rs.head? with
    | none => .error (.goError "authorize: unexpected empty result from evaluating policy.rego")
    | some first =>
      match getDeny first with
      | .error p => .error p
      | .ok d => .ok { Allow := getAllow first, Deny := d }

/-- The loop body of `Evaluate` (policy.go lines 98–104): each query's output
is merged into the running output; the first failure aborts. -/
def evaluateLoop : List QueryResponse → PolicyOutput → Except GoFailure PolicyOutput
  | [], output => .ok output
  | q :: qs, output =>
    match evaluateQuery q with
    | .error f => .error f
    | .ok o => evaluateLoop qs (output.Merge o)

/-- `Evaluate` (policy.go lines 95–106): starts from the zero value
`PolicyOutput{}` (allow `false`, no denial) and folds the per-query outputs
in order. -/
def Evaluate (qs : List QueryResponse) : Except GoFailure PolicyOutput :=
  evaluateLoop qs { Allow := false, Deny := none }

/-- Does this `Evaluate` outcome carry a `PolicyOutput`? -/
def returnsOutput (r : Except GoFailure PolicyOutput) : Bool :=
  match r with
  | .ok _ => true
  | .error _ => false

/-! ### `NewPolicyEvaluator` (policy.go lines 53–92)

`configPolicy.ToPPL()` / `policy.GenerateRegoFromPolicy` live outside the
sources, so the generated base script enters as the outcome `genBase`;
`rego.New(...).PrepareForEval(ctx)` is the engine's compiler, entering as the
function `prepare`.  A `config.Policy` contributes its sub-policies' raw rego
fragments (`sp.Rego` lists, in order). -/

/-- The script units assembled by `NewPolicyEvaluator` (lines 63–72): the
generated base script first, then every non-empty custom fragment of every
sub-policy, in the order supplied. -/
def scriptsOf (base : String) (subPolicies : List (List String)) : List String :=
  base :: (subPolicies.flatMap id).filter (fun src => !(src == ""))

/-- The compile loop (lines 75–89): prepare each script in order; the first
compilation failure aborts with that error, unchanged. -/
def prepareQueries {α : Type} (prepare : String → Except String α) :
    List String → Except String (List α)
  | [] => .ok []
  | s :: ss =>
    match prepare s with
    | .error e => .error e
    | .ok q =>
      match prepareQueries prepare ss with
      | .error e => .error e
      | .ok qs => .ok (q :: qs)

/-- `NewPolicyEvaluator` (lines 53–92): a base-generation failure aborts with
that error; otherwise every script unit is compiled in order. -/
def NewPolicyEvaluator {α : Type} (genBase : Except String String)
    (subPolicies : List (List String)) (prepare : String → Except String α) :
    Except String (List α) :=
  match genBase with
  | .error e => .error e
  | .ok base => prepareQueries prepare (scriptsOf base subPolicies)

/-! ### A heap model for `Merge`'s frame effect

`Merge` takes two `*PolicyOutput` pointers, reads their fields, allocates a
fresh `PolicyOutput` and returns a pointer to it.  To state the frame effect
the Go heap of `PolicyOutput` cells is made explicit as an arena; a pointer is
an index into it. -/
structure OutputHeap where
  cells : List PolicyOutput

/-- Dereference a `*PolicyOutput`. -/
def readCell (h : OutputHeap) (p : Nat) : Option PolicyOutput := h.cells[p]?

/-- `Merge` on the explicit heap: read both operands, allocate the merged
output as a fresh cell (`&PolicyOutput{...}`), return its pointer.  `none`
models dereferencing an invalid pointer. -/
def mergeAlloc (h : OutputHeap) (p q : Nat) : Option (OutputHeap × Nat) :=
  match readCell h p, readCell h q with
  | some output, some other =>
    some ({ cells := h.cells ++ [output.Merge other] }, h.cells.length)
  | _, _ => none

/-- The latest present denial of a sequence of optional denials. -/
def lastPresent (l : List (Option Denial)) : Option Denial :=
  (l.filterMap id).getLast?

/-- Sample result object with a malformed (non-numeric status) `deny` pair
and a `true` `allow`. -/
def coercionObj : List (String × RegoValue) :=
  [("allow", RegoValue.bool true),
   ("deny", RegoValue.arr [RegoValue.str "forbidden", RegoValue.str "msg"])]

/-- Sample result binding holding `coercionObj`. -/
def coercionVars : RegoVars := [("result", RegoValue.obj coercionObj)]

/-! ## The generator package

`// Package generator converts Pomerium Policy Language into Rego.` -/

/-- `parser.Criterion`: a named criterion with an opaque configuration
payload; both are produced by the external parser and never inspected by the
code under study. -/
structure Criterion where
  name : String
  data : String

/-- `parser.PolicyRule`: an action plus the four combinator lists. -/
structure PolicyRule where
  action : String
  And : List Criterion
  Or : List Criterion
  Not : List Criterion
  Nor : List Criterion

/-- `parser.Policy`: an ordered sequence of policy rules. -/
structure Policy where
  Rules : List PolicyRule

/-- A body expression of a generated rego rule: either the assignment
`ast.Assign.Expr(ast.VarTerm "v", ast.VarTerm name)` or the bare term
expression `ast.NewExpr(ast.VarTerm name)` requiring `name` to hold. -/
inductive RuleExpr where
  | assign (lhs rhs : String) : RuleExpr
  | varRef (name : String) : RuleExpr

/-- An `ast.Rule`: head name, positional head arguments (only their count
matters to any claim, so an argument is kept as its printed term), optional
head value term, body, and the `default` marker.  The synthetic source
location assigned by the final `ast.WalkRules` pass of `Generate` (a
diagnostics-only field) is not modelled. -/
structure Rule where
  name : String
  args : List String
  value : Option String
  body : List RuleExpr
  isDefault : Bool

/-- `ast.RuleSet` as used here: an ordered sequence of rules which
`rules.Add` extends at the end. -/
abbrev RuleSet := List Rule

/-- `ast.MustParseRule("default <name> = false")`: a default-false rule with
no head arguments (its parsed placeholder body is irrelevant to every claim
and kept empty). -/
def defaultRule (name : String) : Rule :=
  { name := name, args := [], value := some "false", body := [], isDefault := true }

/-- The head rule built for one `PolicyRule` (part_000 lines 57–62 and 87):
named after the action, head value `ast.VarTerm "v"`, with the body collected
by the combinator loop. -/
def headRule (action : String) (body : List RuleExpr) : Rule :=
  { name := action, args := [], value := some "v", body := body, isDefault := false }

/-- `Generator` state: the per-base-name rule-name counters.  (Go's
`map[string]int` reads `0` for an absent key, so the map is a total
function.)  The criteria registry is opaque to every claim — the criterion
sub-generators enter `Generate` as abstract parameters instead. -/
structure Generator where
  ids : String → Nat

/-- `fmt.Sprintf("%s_%d", name, id)` — the synthetic rule name. -/
def mkRuleName (name : String) (id : Nat) : String :=
  name ++ "_" ++ Nat.repr id

/-- `Generator.NewRule` (part_000 lines 117–125): reads the counter for
`name`, increments it, and returns a fresh rule named `<name>_<counter>`. -/
def Generator.NewRule (g : Generator) (name : String) : Rule × Generator :=
  ({ name := mkRuleName name (g.ids name), args := [], value := none, body := [],
     isDefault := false },
   { ids := fun k => if k = name then g.ids name + 1 else g.ids k })

/-- The rule names produced by a sequence of `NewRule` calls on one
generator (its lifetime trace of synthetic names). -/
def newRuleNames (g : Generator) : List String → List String
  | [] => []
  | b :: bs => (g.NewRule b).1.name :: newRuleNames (g.NewRule b).2 bs

/-- Modelled from the spec: a `conditionalGenerator`
(`generateAndRule` / `generateOrRule` / `generateNotRule` /
`generateNorRule` are not among the sources).  Per §4.1 of the spec each
lowers one criteria list into one synthetic sub-rule, registering it and any
helper rules it needs into the rule set (and allocating names through the
generator), or fails.  Every claim under study holds for *arbitrary* such
functions, so they stay fully abstract. -/
def SubGen : Type :=
  Generator → RuleSet → List Criterion → Except String (Rule × RuleSet × Generator)

/-- The four criterion sub-generators handed to `Generate`, in the fixed
order of the `fields` literal (part_000 lines 64–72). -/
structure SubGens where
  andGen : SubGen
  orGen : SubGen
  notGen : SubGen
  norGen : SubGen

/-- The `fields` slice (part_000 lines 64–72): AND, OR, NOT, NOR in this
fixed order. -/
def fieldsOf (gens : SubGens) (pr : PolicyRule) : List (List Criterion × SubGen) :=
  [(pr.And, gens.andGen), (pr.Or, gens.orGen), (pr.Not, gens.notGen), (pr.Nor, gens.norGen)]

/-- The combinator loop of `Generate` (part_000 lines 73–85), building one
head rule's body: an empty criteria list is skipped; otherwise the
sub-generator runs, an `v := subrule` assignment is appended first when the
body is still empty, and a constraint requiring the sub-rule is always
appended. -/
def genFields (g : Generator) (rules : RuleSet) (body : List RuleExpr) :
    List (List Criterion × SubGen) → Except String (List RuleExpr × RuleSet × Generator)
  | [] => .ok (body, rules, g)
  | (criteria, gen) :: rest =>
    if criteria.length = 0 then genFields g rules body rest
    else
      match gen g rules criteria with
      | .error e => .error e
      | .ok (subRule, rules', g') =>
        let body1 :=
          if body.length = 0 then body ++ [RuleExpr.assign "v" subRule.name] else body
        genFields g' rules' (body1 ++ [RuleExpr.varRef subRule.name]) rest

/-- Specification-side companion of `genFields`: the head names of the
sub-rules produced for the non-empty combinator lists, in processing order,
threading the rule set and generator exactly as `genFields` does. -/
def fieldNames (g : Generator) (rules : RuleSet) :
    List (List Criterion × SubGen) → Except String (List String × RuleSet × Generator)
  | [] => .ok ([], rules, g)
  | (criteria, gen) :: rest =>
    if criteria.length = 0 then fieldNames g rules rest
    else
      match gen g rules criteria with
      | .error e => .error e
      | .ok (subRule, rules', g') =>
        match fieldNames g' rules' rest with
        | .error e => .error e
        | .ok (names, rules2, g2) => .ok (subRule.name :: names, rules2, g2)

/-- The body a head rule gets from its non-empty combinators' sub-rule names:
nothing when there are none; otherwise the first name is assigned to `v` and
every name (first included) contributes one constraint. -/
def bodyOfNames : List String → List RuleExpr
  | [] => []
  | n :: ns => RuleExpr.assign "v" n :: RuleExpr.varRef n :: ns.map RuleExpr.varRef

/-- The per-policy-rule loop of `Generate` (part_000 lines 56–88): for each
policy rule, run the combinator loop (which registers sub-rules into the rule
set) and append the finished head rule. -/
def generateRules (gens : SubGens) :
    List PolicyRule → Generator → RuleSet → Except String (RuleSet × Generator)
  | [], g, rules => .ok (rules, g)
  | pr :: prs, g, rules =>
    match genFields g rules [] (fieldsOf gens pr) with
    | .error e => .error e
    | .ok (body, rules', g') =>
      generateRules gens prs g' (rules' ++ [headRule pr.action body])

/-- The comparison of `sort.SliceStable(mod.Rules, ...)` (part_000 lines
102–104): rule `i` sorts before rule `j` when it has fewer head arguments;
as the non-strict total preorder used by a stable sort this is
`args i ≤ args j`. -/
def ruleLE (r1 r2 : Rule) : Bool := decide (r1.args.length ≤ r2.args.length)

/-- The generated module: its package path and its ordered rules. -/
structure Module where
  packagePath : List String
  Rules : List Rule

/-- `Generator.Generate` (part_000 lines 51–114): seed the rule set with the
two default-false rules, lower every policy rule, package the result under
`pomerium.policy`, and stably sort the rules so functions (rules with more
head arguments) move to the end.  `sort.SliceStable` is modelled by
`List.mergeSort`, the stable sort. -/
def Generator.Generate (g : Generator) (gens : SubGens) (policy : Policy) :
    Except String (Module × Generator) :=
  match generateRules gens policy.Rules g [defaultRule "allow", defaultRule "deny"] with
  | .error e => .error e
  | .ok (rules, g') =>
    .ok ({ packagePath := ["policy.rego", "pomerium", "policy"],
           Rules := List.mergeSort rules ruleLE }, g')

/-- A sample criterion sub-generator: registers nothing and returns a fixed
sub-rule (used to exercise the generator theorems on concrete inputs). -/
def trivialSubGen : SubGen :=
  fun g rules _ =>
    .ok ({ name := "and_0", args := [], value := none, body := [], isDefault := false },
      rules, g)

/-- The sample sub-generator bundle. -/
def trivialSubGens : SubGens :=
  { andGen := trivialSubGen, orGen := trivialSubGen,
    notGen := trivialSubGen, norGen := trivialSubGen }

/-- A fresh generator: every counter at zero. -/
def gen0 : Generator := { ids := fun _ => 0 }

/-- A policy rule with a single AND criterion. -/
def andPolicyRule : PolicyRule :=
  { action := "allow", And := [{ name := "accept", data := "" }],
    Or := [], Not := [], Nor := [] }

/-- A policy rule with all four combinator lists empty. -/
def emptyPolicyRule : PolicyRule :=
  { action := "allow", And := [], Or := [], Not := [], Nor := [] }

/-! ## Helper lemmas -/

theorem lastPresent_merge (a b : Option Denial) (l : List (Option Denial)) :
    lastPresent ((if b.isSome then b else a) :: l) = lastPresent (a :: b :: l) := by
  cases b with
  | none => cases a <;> simp [lastPresent]
  | some d => cases a <;> simp [lastPresent]

theorem foldl_merge_deny (os : List PolicyOutput) :
    ∀ init : PolicyOutput,
      (os.foldl PolicyOutput.Merge init).Deny
        = lastPresent (init.Deny :: os.map PolicyOutput.Deny) := by
  induction os with
  | nil =>
    intro init
    cases h : init.Deny <;> simp [lastPresent, h]
  | cons o os ih =>
    intro init
    simp only [List.foldl_cons, List.map_cons]
    rw [ih]
    exact (lastPresent_merge init.Deny o.Deny (os.map PolicyOutput.Deny)).symm ▸
      (lastPresent_merge init.Deny o.Deny (os.map PolicyOutput.Deny))

/-! ## Claims -/

/-- **C2.** `PolicyOutput.Merge` computes `allow' = running.Allow ∨
other.Allow` and `deny' = other.Deny` when present, else `running.Deny`;
consequently, folding query outputs in order (as `Evaluate` does, starting
from the zero output) leaves as final denial the latest present denial of the
sequence — a later absent denial never erases an earlier present one, and a
later present denial always wins. -/
theorem merge_allow_or_deny_latest_wins :
    (∀ running other : PolicyOutput,
      (running.Merge other).Allow = (running.Allow || other.Allow)
      ∧ (running.Merge other).Deny
          = (if other.Deny.isSome then other.Deny else running.Deny))
    ∧ (∀ (os : List PolicyOutput) (init : PolicyOutput),
      (os.foldl PolicyOutput.Merge init).Deny
        = lastPresent (init.Deny :: os.map PolicyOutput.Deny)) :=
  ⟨fun _ _ => ⟨rfl, rfl⟩, fun os init => foldl_merge_deny os init⟩

/-- **C4.** `getAllow` returns `true` exactly when the `result` binding is an
object whose `allow` field is the boolean `true`; a missing or non-object
`result`, or a missing or non-boolean `allow`, yields `false` (and `getAllow`
is total, so no error is ever raised). -/
theorem getAllow_true_iff (vars : RegoVars) :
    getAllow vars = true
      ↔ ∃ m, List.lookup "result" vars = some (RegoValue.obj m)
          ∧ List.lookup "allow" m = some (RegoValue.bool true) := by
  unfold getAllow
  cases hr : List.lookup "result" vars with
  | none => simp
  | some v =>
    cases v with
    | obj m =>
      cases ha : List.lookup "allow" m with
      | none => simp [ha]
      | some w =>
        cases w with
        | bool b => cases b <;> simp [ha]
        | null => simp [ha]
        | num n => simp [ha]
        | str s => simp [ha]
        | arr xs => simp [ha]
        | obj mm => simp [ha]
    | null => simp
    | bool b => simp
    | num n => simp
    | str s => simp
    | arr xs => simp

/-- **C10.** On the explicit heap, `Merge` allocates a fresh cell for its
result and leaves every existing cell — in particular both operands —
untouched: the returned pointer is the fresh index past the old heap, every
old pointer still dereferences to its old value, and the fresh cell holds the
functional merge of the two operand values. -/
theorem mergeAlloc_frame (h : OutputHeap) (p q : Nat) (h' : OutputHeap) (r : Nat)
    (hm : mergeAlloc h p q = some (h', r)) :
    r = h.cells.length ∧ p < r ∧ q < r
    ∧ (∀ i, i < h.cells.length → readCell h' i = readCell h i)
    ∧ readCell h' p = readCell h p
    ∧ readCell h' q = readCell h q
    ∧ (∀ a b, readCell h p = some a → readCell h q = some b →
        readCell h' r = some (a.Merge b)) := by
  unfold mergeAlloc at hm
  cases hp : readCell h p with
  | none => rw [hp] at hm; cases hm
  | some a =>
    cases hq : readCell h q with
    | none => rw [hp, hq] at hm; cases hm
    | some b =>
      rw [hp, hq] at hm
      injection hm with hm'
      cases hm'
      have hplen : p < h.cells.length := by
        by_contra hcon
        have : h.cells[p]? = none := List.getElem?_eq_none (Nat.le_of_not_lt hcon)
        rw [readCell, this] at hp; cases hp
      have hqlen : q < h.cells.length := by
        by_contra hcon
        have : h.cells[q]? = none := List.getElem?_eq_none (Nat.le_of_not_lt hcon)
        rw [readCell, this] at hq; cases hq
      have hframe : ∀ i, i < h.cells.length →
          readCell { cells := h.cells ++ [a.Merge b] } i = readCell h i := by
        intro i hi
        show (h.cells ++ [a.Merge b])[i]? = h.cells[i]?
        rw [List.getElem?_append]
        simp [hi]
      refine ⟨rfl, hplen, hqlen, hframe, (hframe p hplen).trans hp,
        (hframe q hqlen).trans hq, ?_⟩
      intro a' b' ha' hb'
      injection ha' with ha'; injection hb' with hb'
      subst ha'; subst hb'
      show (h.cells ++ [a.Merge b])[h.cells.length]? = some (a.Merge b)
      rw [List.getElem?_append_right (Nat.le_refl _)]
      simp

/-- Witness for **C10**: a two-cell heap; merging cells 0 and 1 leaves cell 1
readable unchanged and puts the functional merge in the fresh cell 2. -/
theorem mergeAlloc_frame_witness :
    readCell { cells := [{ Allow := true, Deny := none },
                         { Allow := false, Deny := some { Status := 403, Message := "x" } },
                         PolicyOutput.Merge { Allow := true, Deny := none }
                           { Allow := false, Deny := some { Status := 403, Message := "x" } }] } 1
      = readCell { cells := [{ Allow := true, Deny := none },
                             { Allow := false, Deny := some { Status := 403, Message := "x" } }] } 1
    ∧ readCell { cells := [{ Allow := true, Deny := none },
                           { Allow := false, Deny := some { Status := 403, Message := "x" } },
                           PolicyOutput.Merge { Allow := true, Deny := none }
                             { Allow := false, Deny := some { Status := 403, Message := "x" } }] } 2
      = some (PolicyOutput.Merge { Allow := true, Deny := none }
               { Allow := false, Deny := some { Status := 403, Message := "x" } }) := by
  have h := mergeAlloc_frame
    { cells := [{ Allow := true, Deny := none },
                { Allow := false, Deny := some { Status := 403, Message := "x" } }] } 0 1
    { cells := [{ Allow := true, Deny := none },
                { Allow := false, Deny := some { Status := 403, Message := "x" } },
                PolicyOutput.Merge { Allow := true, Deny := none }
                  { Allow := false, Deny := some { Status := 403, Message := "x" } }] } 2
    rfl
  exact ⟨h.2.2.2.1 1 (by decide), h.2.2.2.2.2.2 _ _ rfl rfl⟩

/-- **C1 (counterexample).** The claim says a `deny` value that is an array
of fewer than 2 elements yields no denial and does not fail; but on a result
whose `deny` is the empty array, `getDeny` reads `pair[0]` out of range and
panics, and `evaluateQuery` crashes with it instead of returning a
`PolicyOutput`. -/
theorem getDeny_empty_array_panics :
    getDeny [("result", RegoValue.obj [("deny", RegoValue.arr [])])]
      = .error .crash
    ∧ evaluateQuery (.ok [[("result", RegoValue.obj [("deny", RegoValue.arr [])])]])
      = .error .crash :=
  ⟨rfl, rfl⟩

/-- **C1 (amended).** If the `result` binding is missing or not an object, or
its `deny` field is missing or not an array, `getDeny` yields no denial and
does not fail, and `evaluateQuery` still returns a `PolicyOutput`.  If `deny`
*is* an array of fewer than 2 elements the extraction is not safe: on the
empty array `getDeny` panics reading `pair[0]`; on a one-element array it
panics reading `pair[1]` whenever the sole element coerces to an integer, and
only returns no denial (without failing) when that coercion fails. -/
theorem getDeny_shape (vars : RegoVars) :
    ((∀ m, List.lookup "result" vars ≠ some (RegoValue.obj m)) → getDeny vars = .ok none)
    ∧ (∀ m, List.lookup "result" vars = some (RegoValue.obj m) →
        ((∀ pair, List.lookup "deny" m ≠ some (RegoValue.arr pair)) →
          getDeny vars = .ok none)
        ∧ (List.lookup "deny" m = some (RegoValue.arr []) →
          getDeny vars = .error .crash)
        ∧ (∀ v, List.lookup "deny" m = some (RegoValue.arr [v]) →
            (atoi (sprint v) = none → getDeny vars = .ok none)
            ∧ (∀ n, atoi (sprint v) = some n → getDeny vars = .error .crash)))
    ∧ (∀ d, getDeny vars = .ok d →
        evaluateQuery (.ok [vars]) = .ok { Allow := getAllow vars, Deny := d }) := by
  refine ⟨?_, ?_, ?_⟩
  · intro hno
    unfold getDeny
    cases hr : List.lookup "result" vars with
    | none => rfl
    | some v =>
      cases v with
      | obj m => exact absurd hr (hno m)
      | null => rfl
      | bool b => rfl
      | num n => rfl
      | str s => rfl
      | arr xs => rfl
  · intro m hm
    refine ⟨?_, ?_, ?_⟩
    · intro hno
      simp only [getDeny, hm]
    · intro hd
      simp only [getDeny, hm, hd, List.head?_nil]
    · intro v hd
      constructor
      · intro hc
        simp only [getDeny, hm, hd, List.head?_cons, hc]
      · intro n hc
        simp only [getDeny, hm, hd, List.head?_cons, hc]
        rfl
  · intro d hd
    unfold evaluateQuery
    simp only [List.head?_cons, hd]

/-- Witness for **C1 (amended)**: a binding with no `result` at all yields no
denial without failing, and `evaluateQuery` still returns a `PolicyOutput`. -/
theorem getDeny_shape_witness :
    getDeny [] = .ok none
    ∧ evaluateQuery (.ok [([] : RegoVars)])
        = .ok { Allow := getAllow [], Deny := none } := by
  have h := getDeny_shape []
  have h1 : getDeny [] = .ok none := h.1 (fun m hcon => by cases hcon)
  exact ⟨h1, h.2.2 none h1⟩

/-- **C5.** A present `deny` pair whose status element fails integer coercion
(after `fmt.Sprint` stringification) is non-fatal: `getDeny` yields no denial
(the diagnostic log is outside the model), and `evaluateQuery` still returns
the clause's output with its `allow` contribution intact.  When the status
element does coerce (and a message element exists), the message is
unconditionally the stringification of the second element. -/
theorem getDeny_status_coercion (vars : RegoVars) (m : List (String × RegoValue))
    (pair : List RegoValue)
    (hm : List.lookup "result" vars = some (RegoValue.obj m))
    (hd : List.lookup "deny" m = some (RegoValue.arr pair)) :
    (∀ v0, pair.head? = some v0 → atoi (sprint v0) = none →
      getDeny vars = .ok none
      ∧ evaluateQuery (.ok [vars]) = .ok { Allow := getAllow vars, Deny := none })
    ∧ (∀ v0 v1 rest n, pair = v0 :: v1 :: rest → atoi (sprint v0) = some n →
      getDeny vars = .ok (some { Status := n, Message := sprint v1 })) := by
  constructor
  · intro v0 hv0 hc
    have h1 : getDeny vars = .ok none := by
      simp only [getDeny, hm, hd, hv0, hc]
    refine ⟨h1, ?_⟩
    unfold evaluateQuery
    simp only [List.head?_cons, h1]
  · intro v0 v1 rest n hpair hc
    subst hpair
    simp only [getDeny, hm, hd, List.head?_cons, hc, List.getElem?_cons_succ,
      List.getElem?_cons_zero]

/-- Witness for **C5**: a `deny` pair `["forbidden", "msg"]` whose status
does not coerce: no denial, no failure, and the clause's `allow := true` is
still honored. -/
theorem getDeny_status_coercion_witness :
    getDeny coercionVars = .ok none
    ∧ evaluateQuery (.ok [coercionVars])
      = .ok { Allow := getAllow coercionVars, Deny := none } :=
  (getDeny_status_coercion coercionVars coercionObj
      [RegoValue.str "forbidden", RegoValue.str "msg"] rfl rfl).1
    (RegoValue.str "forbidden") rfl rfl

theorem evaluateLoop_aborts (q : QueryResponse)
    (hcase : (∃ e, q = .error e) ∨ q = .ok ([] : List RegoVars)) :
    ∀ qs : List QueryResponse, q ∈ qs → ∀ out,
      returnsOutput (evaluateLoop qs out) = false := by
  intro qs
  induction qs with
  | nil => intro h; cases h
  | cons q0 qs ih =>
    intro hq out
    rcases List.mem_cons.mp hq with h0 | htail
    · subst h0
      rcases hcase with ⟨e, he⟩ | he <;> subst he <;> rfl
    · show returnsOutput (match evaluateQuery q0 with
        | .error f => Except.error f
        | .ok o => evaluateLoop qs (out.Merge o)) = false
      cases hval : evaluateQuery q0 with
      | error f => rfl
      | ok o => exact ih htail (out.Merge o)

/-- **C3.** `Evaluate` is fail-stop: as soon as some query's execution
returns an error or yields zero result bindings, the whole `Evaluate` call
produces no `PolicyOutput` — earlier queries' contributions are discarded.
(`returnsOutput _ = false` says the call fails; the failing query itself
always surfaces as a returned, wrapped error, while a malformed binding of an
*earlier* query could already have crashed the loop — in every case no output
is returned.) -/
theorem evaluate_fail_stop (qs : List QueryResponse)
    (hbad : ∃ q ∈ qs, (∃ e, q = .error e) ∨ q = .ok ([] : List RegoVars)) :
    returnsOutput (Evaluate qs) = false := by
  obtain ⟨q, hq, hcase⟩ := hbad
  exact evaluateLoop_aborts q hcase qs hq _

/-- Witness for **C3**: a successful first query followed by a query with an
empty result set makes the whole `Evaluate` call fail. -/
theorem evaluate_fail_stop_witness :
    returnsOutput (Evaluate
      [.ok [[("result", RegoValue.obj [("allow", RegoValue.bool true)])]],
       .ok ([] : List RegoVars)]) = false :=
  evaluate_fail_stop _ ⟨.ok ([] : List RegoVars), by simp, Or.inr rfl⟩

/-- **C9 (counterexample).** The claim says a unit's compilation failure
yields an error wrapped to name the failing unit's position; but
`NewPolicyEvaluator` returns the compiler's error verbatim: the same raw
error `"boom"` comes back whether the failing fragment sits at position 1 or
at position 2, so the returned error cannot name the failing unit's
position. -/
theorem newPolicyEvaluator_error_not_wrapped :
    NewPolicyEvaluator (.ok "base") [["bad"]]
        (fun s => if s == "bad" then .error "boom" else .ok s)
      = .error "boom"
    ∧ NewPolicyEvaluator (.ok "base") [["okA", "bad"]]
        (fun s => if s == "bad" then .error "boom" else .ok s)
      = .error "boom" :=
  ⟨rfl, rfl⟩

/-- **C9 (amended).** During construction, the units compiled are exactly the
generated base program first, then each non-empty override fragment in the
order supplied (empty fragments are skipped); a failure of the base
generation, or of any unit's compilation, aborts construction returning no
evaluator — the underlying error is propagated unchanged (it is not wrapped
and does not name the failing unit's position). -/
theorem newPolicyEvaluator_spec {α : Type} :
    (∀ (e : String) (sps : List (List String)) (prepare : String → Except String α),
      NewPolicyEvaluator (.error e) sps prepare = .error e)
    ∧ (∀ (base : String) (sps : List (List String)),
      scriptsOf base sps = base :: (sps.flatMap id).filter (fun src => !(src == "")))
    ∧ (∀ (base : String) (sps : List (List String)) (f : String → α),
      NewPolicyEvaluator (.ok base) sps (fun s => .ok (f s))
        = .ok ((scriptsOf base sps).map f))
    ∧ (∀ (base : String) (sps : List (List String)) (prepare : String → Except String α),
      NewPolicyEvaluator (.ok base) sps prepare
        = prepareQueries prepare (scriptsOf base sps))
    ∧ (∀ (prepare : String → Except String α) (ss1 : List String) (s : String)
        (ss2 : List String) (e : String),
      (∀ t ∈ ss1, ∃ q, prepare t = .ok q) → prepare s = .error e →
      prepareQueries prepare (ss1 ++ s :: ss2) = .error e) := by
  refine ⟨fun _ _ _ => rfl, fun _ _ => rfl, ?_, fun _ _ _ => rfl, ?_⟩
  · intro base sps f
    show prepareQueries (fun s => .ok (f s)) (scriptsOf base sps)
      = .ok ((scriptsOf base sps).map f)
    generalize scriptsOf base sps = ss
    induction ss with
    | nil => rfl
    | cons s ss ih =>
      show (match prepareQueries (fun s => Except.ok (f s)) ss with
        | .error e => Except.error e
        | .ok qs => Except.ok (f s :: qs)) = .ok (f s :: ss.map f)
      rw [ih]
  · intro prepare ss1 s ss2 e hok he
    induction ss1 with
    | nil =>
      show (match prepare s with
        | .error e => Except.error e
        | .ok q =>
          match prepareQueries prepare ss2 with
          | .error e => Except.error e
          | .ok qs => Except.ok (q :: qs)) = .error e
      rw [he]
    | cons t ss1 ih =>
      obtain ⟨q, hq⟩ := hok t (List.mem_cons_self t ss1)
      show (match prepare t with
        | .error e => Except.error e
        | .ok q =>
          match prepareQueries prepare (ss1 ++ s :: ss2) with
          | .error e => Except.error e
          | .ok qs => Except.ok (q :: qs)) = .error e
      rw [hq, ih (fun t' ht' => hok t' (List.mem_cons_of_mem t ht'))]

/-- Witness for **C9 (amended)**: base compiles, the second unit fails with
`"boom"`; construction aborts with exactly that error. -/
theorem newPolicyEvaluator_spec_witness :
    prepareQueries (fun s => if s == "bad" then .error "boom" else .ok s)
      (["base"] ++ "bad" :: []) = .error "boom" :=
  newPolicyEvaluator_spec.2.2.2.2
    (fun s => if s == "bad" then .error "boom" else .ok s) ["base"] "bad" [] "boom"
    (fun t ht => by
      have : t = "base" := List.mem_singleton.mp ht
      exact ⟨"base", by rw [this]; rfl⟩)
    rfl

/-! ### Decimal-representation facts for the synthetic rule names -/

theorem digit_facts : ∀ r : Nat, r < 10 →
    digitVal (Nat.digitChar r) = r ∧ Nat.digitChar r ≠ '_' := by
  decide

theorem toDigitsCore_append : ∀ (fuel n : Nat) (acc : List Char),
    Nat.toDigitsCore 10 fuel n acc = Nat.toDigitsCore 10 fuel n [] ++ acc := by
  intro fuel
  induction fuel with
  | zero => intro n acc; rfl
  | succ fuel ih =>
    intro n acc
    simp only [Nat.toDigitsCore]
    by_cases h : n / 10 = 0
    · simp [h]
    · simp only [if_neg h]
      rw [ih (n / 10) (Nat.digitChar (n % 10) :: acc),
        ih (n / 10) [Nat.digitChar (n % 10)]]
      simp

theorem toDigitsCore_no_underscore : ∀ (fuel n : Nat) (acc : List Char),
    (∀ c ∈ acc, c ≠ '_') → ∀ c ∈ Nat.toDigitsCore 10 fuel n acc, c ≠ '_' := by
  intro fuel
  induction fuel with
  | zero => intro n acc hacc; exact hacc
  | succ fuel ih =>
    intro n acc hacc
    simp only [Nat.toDigitsCore]
    have hd : Nat.digitChar (n % 10) ≠ '_' :=
      (digit_facts (n % 10) (Nat.mod_lt n (by omega))).2
    have hcons : ∀ c ∈ Nat.digitChar (n % 10) :: acc, c ≠ '_' := by
      intro c hc
      rcases List.mem_cons.mp hc with h | h
      · exact h ▸ hd
      · exact hacc c h
    by_cases h : n / 10 = 0
    · simpa [h] using hcons
    · simp only [if_neg h]
      exact ih (n / 10) (Nat.digitChar (n % 10) :: acc) hcons

theorem natDecode_toDigitsCore : ∀ (fuel n : Nat), n < fuel →
    natDecode (Nat.toDigitsCore 10 fuel n []) = n := by
  intro fuel
  induction fuel with
  | zero => intro n h; omega
  | succ fuel ih =>
    intro n hn
    simp only [Nat.toDigitsCore]
    by_cases h : n / 10 = 0
    · have h10 : n < 10 := by omega
      simp only [if_pos h]
      show natDecode [Nat.digitChar (n % 10)] = n
      have := (digit_facts (n % 10) (Nat.mod_lt n (by omega))).1
      simp [natDecode, this]
      omega
    · simp only [if_neg h]
      rw [toDigitsCore_append fuel (n / 10) [Nat.digitChar (n % 10)]]
      have hlt : n / 10 < fuel := by
        have h1 : 0 < n := by
          rcases Nat.eq_zero_or_pos n with h0 | h0
          · exact absurd (by simp [h0]) h
          · exact h0
        have := Nat.div_lt_self h1 (by omega : 1 < 10)
        omega
      have hdec := ih (n / 10) hlt
      show natDecode (Nat.toDigitsCore 10 fuel (n / 10) [] ++ [Nat.digitChar (n % 10)]) = n
      unfold natDecode at hdec ⊢
      rw [List.foldl_append]
      simp only [List.foldl_cons, List.foldl_nil]
      rw [hdec, (digit_facts (n % 10) (Nat.mod_lt n (by omega))).1]
      omega

theorem repr_data (n : Nat) : (Nat.repr n).data = Nat.toDigitsCore 10 (n + 1) n [] := rfl

theorem natDecode_repr (n : Nat) : natDecode (Nat.repr n).data = n := by
  rw [repr_data]
  exact natDecode_toDigitsCore (n + 1) n (Nat.lt_succ_self n)

theorem repr_no_underscore (n : Nat) : ∀ c ∈ (Nat.repr n).data, c ≠ '_' := by
  rw [repr_data]
  exact toDigitsCore_no_underscore (n + 1) n [] (by intro c hc; cases hc)

theorem repr_inj {m n : Nat} (h : Nat.repr m = Nat.repr n) : m = n := by
  have := congrArg (fun s => natDecode s.data) h
  simpa [natDecode_repr] using this

theorem append_underscore_inj : ∀ (xs a ys b : List Char),
    (∀ c ∈ a, c ≠ '_') → (∀ c ∈ b, c ≠ '_') →
    xs ++ '_' :: a = ys ++ '_' :: b → xs = ys ∧ a = b := by
  intro xs
  induction xs with
  | nil =>
    intro a ys b ha hb h
    cases ys with
    | nil =>
      simp only [List.nil_append] at h
      exact ⟨rfl, (List.cons.injEq .. ▸ h).2⟩
    | cons y ys' =>
      simp only [List.nil_append, List.cons_append] at h
      have h2 : a = ys' ++ '_' :: b := (List.cons.injEq .. ▸ h).2
      have : '_' ∈ a := by
        rw [h2]
        exact List.mem_append_right ys' (List.mem_cons_self '_' b)
      exact absurd rfl (ha '_' this)
  | cons x xs' ih =>
    intro a ys b ha hb h
    cases ys with
    | nil =>
      simp only [List.nil_append, List.cons_append] at h
      have h2 : xs' ++ '_' :: a = b := (List.cons.injEq .. ▸ h).2
      have : '_' ∈ b := by
        rw [← h2]
        exact List.mem_append_right xs' (List.mem_cons_self '_' a)
      exact absurd rfl (hb '_' this)
    | cons y ys' =>
      simp only [List.cons_append] at h
      have h1 : x = y := (List.cons.injEq .. ▸ h).1
      have h2 : xs' ++ '_' :: a = ys' ++ '_' :: b := (List.cons.injEq .. ▸ h).2
      obtain ⟨hxs, hab⟩ := ih a ys' b ha hb h2
      exact ⟨by rw [h1, hxs], hab⟩

theorem mkRuleName_inj {b1 b2 : String} {n1 n2 : Nat}
    (h : mkRuleName b1 n1 = mkRuleName b2 n2) : b1 = b2 ∧ n1 = n2 := by
  have hdata : b1.data ++ '_' :: (Nat.repr n1).data
      = b2.data ++ '_' :: (Nat.repr n2).data := by
    have := congrArg String.data h
    simpa [mkRuleName, String.data_append] using this
  obtain ⟨hb, hn⟩ := append_underscore_inj b1.data (Nat.repr n1).data b2.data
    (Nat.repr n2).data (repr_no_underscore n1) (repr_no_underscore n2) hdata
  exact ⟨String.ext hb, repr_inj (String.ext hn)⟩

theorem newRule_ids_le (g : Generator) (b k : String) :
    g.ids k ≤ ((g.NewRule b).2).ids k := by
  show g.ids k ≤ (if k = b then g.ids b + 1 else g.ids k)
  by_cases h : k = b
  · simp [h]
  · simp [h]

theorem mkRuleName_notMem : ∀ (bases : List String) (g : Generator) (c : String) (n : Nat),
    n < g.ids c → mkRuleName c n ∉ newRuleNames g bases := by
  intro bases
  induction bases with
  | nil => intro g c n _ h; cases h
  | cons b bs ih =>
    intro g c n hn h
    rcases List.mem_cons.mp h with h0 | htail
    · obtain ⟨hb, hid⟩ := mkRuleName_inj h0
      rw [hb] at hn
      omega
    · have hle : n < ((g.NewRule b).2).ids c :=
        Nat.lt_of_lt_of_le hn (newRule_ids_le g b c)
      exact ih ((g.NewRule b).2) c n hle htail

/-- **C6.** Every `NewRule` call returns a rule named `<base>_<n>` where `n`
is the per-base counter at the time of the call, and the counter is
incremented afterwards; consequently, within one Generator's lifetime, no two
`NewRule` calls — whatever the interleaving of base names — ever return the
same name, so two criteria of the same kind lowered in one `Generate` call
receive distinct synthetic names. -/
theorem newRule_unique_names :
    (∀ (g : Generator) (base : String),
      (g.NewRule base).1.name = mkRuleName base (g.ids base)
      ∧ ((g.NewRule base).2).ids base = g.ids base + 1)
    ∧ (∀ (g : Generator) (bases : List String), (newRuleNames g bases).Nodup) := by
  constructor
  · intro g base
    exact ⟨rfl, by simp [Generator.NewRule]⟩
  · intro g bases
    induction bases generalizing g with
    | nil => exact List.nodup_nil
    | cons b bs ih =>
      refine List.nodup_cons.mpr ⟨?_, ih ((g.NewRule b).2)⟩
      have hlt : g.ids b < ((g.NewRule b).2).ids b := by
        show g.ids b < (if b = b then g.ids b + 1 else g.ids b)
        simp
      exact mkRuleName_notMem bs ((g.NewRule b).2) b (g.ids b) hlt

/-! ### Combinator-loop characterization -/

theorem genFields_append : ∀ (fields : List (List Criterion × SubGen))
    (g : Generator) (rules : RuleSet) (body : List RuleExpr), body.length ≠ 0 →
    genFields g rules body fields
      = Except.map (fun x => (body ++ x.1.map RuleExpr.varRef, x.2))
          (fieldNames g rules fields) := by
  intro fields
  induction fields with
  | nil =>
    intro g rules body _
    simp [genFields, fieldNames, Except.map]
  | cons field rest ih =>
    intro g rules body hbody
    obtain ⟨criteria, gen⟩ := field
    by_cases hc : criteria.length = 0
    · simp only [genFields, fieldNames, if_pos hc]
      exact ih g rules body hbody
    · simp only [genFields, fieldNames, if_neg hc]
      cases hg : gen g rules criteria with
      | error e => simp [Except.map]
      | ok res =>
        obtain ⟨subRule, rules', g'⟩ := res
        simp only [if_neg hbody]
        rw [ih g' rules' (body ++ [RuleExpr.varRef subRule.name]) (by simp)]
        cases hfn : fieldNames g' rules' rest with
        | error e => simp [Except.map]
        | ok x =>
          obtain ⟨names, rules2, g2⟩ := x
          simp [Except.map, List.append_assoc]

theorem genFields_bodyOfNames : ∀ (fields : List (List Criterion × SubGen))
    (g : Generator) (rules : RuleSet),
    genFields g rules [] fields
      = Except.map (fun x => (bodyOfNames x.1, x.2)) (fieldNames g rules fields) := by
  intro fields
  induction fields with
  | nil =>
    intro g rules
    simp [genFields, fieldNames, Except.map, bodyOfNames]
  | cons field rest ih =>
    intro g rules
    obtain ⟨criteria, gen⟩ := field
    by_cases hc : criteria.length = 0
    · simp only [genFields, fieldNames, if_pos hc]
      exact ih g rules
    · simp only [genFields, fieldNames, if_neg hc]
      cases hg : gen g rules criteria with
      | error e => simp [Except.map]
      | ok res =>
        obtain ⟨subRule, rules', g'⟩ := res
        show genFields g' rules'
          [RuleExpr.assign "v" subRule.name, RuleExpr.varRef subRule.name] rest = _
        rw [genFields_append rest g' rules'
          [RuleExpr.assign "v" subRule.name, RuleExpr.varRef subRule.name] (by simp)]
        cases hfn : fieldNames g' rules' rest with
        | error e => simp [Except.map, hfn]
        | ok x =>
          obtain ⟨names, rules2, g2⟩ := x
          simp [Except.map, hfn, bodyOfNames]

/-- **C8.** A `PolicyRule` with all four combinator lists empty produces a
head rule with no body constraints; in general (whenever the sub-generator
chain for the non-empty combinators, processed in the fixed order AND, OR,
NOT, NOR, succeeds with sub-rule names `names`), the head rule's body is
`bodyOfNames names`: the first non-empty combinator's sub-rule is assigned to
the head's value variable `v`, and every non-empty combinator — first or not
— appends one constraint requiring its sub-rule to hold. -/
theorem generate_head_rule_body :
    (∀ (gens : SubGens) (action : String) (g : Generator) (rules : RuleSet),
      generateRules gens
          [{ action := action, And := [], Or := [], Not := [], Nor := [] }] g rules
        = .ok (rules ++ [headRule action []], g))
    ∧ (∀ (gens : SubGens) (pr : PolicyRule) (g : Generator) (rules : RuleSet),
      genFields g rules [] (fieldsOf gens pr)
        = Except.map (fun x => (bodyOfNames x.1, x.2))
            (fieldNames g rules (fieldsOf gens pr)))
    ∧ (∀ (gens : SubGens) (pr : PolicyRule) (prs : List PolicyRule) (g : Generator)
        (rules : RuleSet) (names : List String) (rules' : RuleSet) (g' : Generator),
      fieldNames g rules (fieldsOf gens pr) = .ok (names, rules', g') →
      generateRules gens (pr :: prs) g rules
        = generateRules gens prs g'
            (rules' ++ [headRule pr.action (bodyOfNames names)])) := by
  refine ⟨fun gens action g rules => rfl,
    fun gens pr g rules => genFields_bodyOfNames (fieldsOf gens pr) g rules, ?_⟩
  intro gens pr prs g rules names rules' g' hfn
  show (match genFields g rules [] (fieldsOf gens pr) with
    | .error e => Except.error e
    | .ok (body, rules2, g2) =>
      generateRules gens prs g2 (rules2 ++ [headRule pr.action body])) = _
  rw [genFields_bodyOfNames (fieldsOf gens pr) g rules, hfn]
  rfl

/-- Witness for **C8**: one AND criterion; the sub-generator chain yields the
single name `and_0`, and the head rule's body becomes
`v := and_0; and_0`. -/
theorem generate_head_rule_body_witness :
    generateRules trivialSubGens [andPolicyRule] gen0 []
      = generateRules trivialSubGens [] gen0
          ([] ++ [headRule andPolicyRule.action (bodyOfNames ["and_0"])]) :=
  generate_head_rule_body.2.2 trivialSubGens andPolicyRule [] gen0 [] ["and_0"] [] gen0 rfl

/-! ### Stable sort by arity -/

theorem ruleLE_trans : ∀ (a b c : Rule), ruleLE a b → ruleLE b c → ruleLE a c := by
  intro a b c hab hbc
  simp only [ruleLE, decide_eq_true_eq] at *
  omega

theorem ruleLE_total : ∀ (a b : Rule), ruleLE a b || ruleLE b a := by
  intro a b
  simp only [ruleLE]
  by_cases h : a.args.length ≤ b.args.length
  · simp [h]
  · simp [h]
    omega

theorem filter_mergeSort_arity (rs : List Rule) (k : Nat) :
    (List.mergeSort rs ruleLE).filter (fun r => r.args.length == k)
      = rs.filter (fun r => r.args.length == k) := by
  have hp : (rs.filter (fun r => r.args.length == k)).Pairwise
      (fun a b => ruleLE a b) := by
    apply List.pairwise_of_forall_mem_list
    intro a ha b hb
    have ha' := (List.mem_filter.mp ha).2
    have hb' := (List.mem_filter.mp hb).2
    simp only [beq_iff_eq] at ha' hb'
    simp [ruleLE, ha', hb']
  have hsub : List.Sublist (rs.filter (fun r => r.args.length == k))
      (List.mergeSort rs ruleLE) :=
    List.sublist_mergeSort ruleLE_trans ruleLE_total hp (List.filter_sublist rs)
  have hself : (rs.filter (fun r => r.args.length == k)).filter
      (fun r => r.args.length == k) = rs.filter (fun r => r.args.length == k) :=
    List.filter_eq_self.mpr (fun a ha => (List.mem_filter.mp ha).2)
  have hsub2 : List.Sublist (rs.filter (fun r => r.args.length == k))
      ((List.mergeSort rs ruleLE).filter (fun r => r.args.length == k)) :=
    hself ▸ hsub.filter (fun r => r.args.length == k)
  have hperm : List.Perm
      ((List.mergeSort rs ruleLE).filter (fun r => r.args.length == k))
      (rs.filter (fun r => r.args.length == k)) :=
    (List.mergeSort_perm rs ruleLE).filter _
  exact (hsub2.eq_of_length hperm.length_eq.symm).symm

/-- **C7.** In the module returned by `Generate`, a rule with fewer head
arguments never appears after one with more (the rules are pairwise ordered
by argument count), and rules with the same number of arguments keep the
relative order in which they were added: for every arity, filtering the
emitted rules gives exactly the filtered pre-sort sequence.  The emitted
rules are moreover a permutation of the rules that were added. -/
theorem generate_sorted_stable (gens : SubGens) (policy : Policy) (g : Generator)
    (rs : RuleSet) (g' : Generator)
    (hgen : generateRules gens policy.Rules g [defaultRule "allow", defaultRule "deny"]
      = .ok (rs, g')) :
    Generator.Generate g gens policy
      = .ok ({ packagePath := ["policy.rego", "pomerium", "policy"],
               Rules := List.mergeSort rs ruleLE }, g')
    ∧ (List.mergeSort rs ruleLE).Pairwise
        (fun r1 r2 => r1.args.length ≤ r2.args.length)
    ∧ (∀ k, (List.mergeSort rs ruleLE).filter (fun r => r.args.length == k)
        = rs.filter (fun r => r.args.length == k))
    ∧ List.Perm (List.mergeSort rs ruleLE) rs := by
  refine ⟨?_, ?_, fun k => filter_mergeSort_arity rs k, List.mergeSort_perm rs ruleLE⟩
  · unfold Generator.Generate
    rw [hgen]
  · have h := List.sorted_mergeSort ruleLE_trans ruleLE_total rs
    exact h.imp (by intro a b hab; simpa [ruleLE] using hab)

/-- Witness for **C7**: generating from a one-rule policy with no criteria;
the three 0-argument rules come out pairwise ordered by argument count and as
a permutation of the rules added. -/
theorem generate_sorted_stable_witness :
    (List.mergeSort [defaultRule "allow", defaultRule "deny", headRule "allow" []]
        ruleLE).Pairwise (fun r1 r2 => r1.args.length ≤ r2.args.length)
    ∧ List.Perm
        (List.mergeSort [defaultRule "allow", defaultRule "deny", headRule "allow" []]
          ruleLE)
        [defaultRule "allow", defaultRule "deny", headRule "allow" []] := by
  have h := generate_sorted_stable trivialSubGens { Rules := [emptyPolicyRule] } gen0
    [defaultRule "allow", defaultRule "deny", headRule "allow" []] gen0 rfl
  exact ⟨h.2.1, h.2.2.2⟩

end Pomerium
